import Mathlib

/-!
Verification of the interruption-decision core of
`examples/voice_agents/basic_agent.py`.

The Python core consists of the configurable backchannel lexicon
`IGNORE_WORDS`, the classifier `InterruptionHandler.is_backchannel`, the
decision function `InterruptionHandler.should_interrupt`, and the two event
handlers `on_transcription` (partial transcripts) and
`on_user_speech_committed` (finalized turns).

Python strings are modelled as `List Char`.  The string primitives the core
uses — `str.replace("-", " ")`, `str.translate` deleting
`string.punctuation`, `str.lower`, `str.split()` with no arguments, and
`str.strip()` — are modelled on the ASCII fragment: `string.punctuation` is
exactly the ASCII codepoint ranges 33–47, 58–64, 91–96 and 123–126, the
whitespace class is the common ASCII whitespace (codepoints 9–13 and 32),
and lowering maps codepoints 65–90 to 97–122 and fixes everything else.
Every string actually occurring in the program (the lexicon and the test
inputs of the specification) is ASCII, where these models agree with
Python's semantics exactly.
-/

/-- Membership test of `string.punctuation` (the 32 ASCII punctuation
characters deleted by the `translate` call in `is_backchannel`). -/
def isPunct (c : Char) : Bool :=
  decide ((33 ≤ c.toNat ∧ c.toNat ≤ 47) ∨ (58 ≤ c.toNat ∧ c.toNat ≤ 64) ∨
    (91 ≤ c.toNat ∧ c.toNat ≤ 96) ∨ (123 ≤ c.toNat ∧ c.toNat ≤ 126))

/-- The whitespace class used by Python's `str.split()` and `str.strip()`
(ASCII fragment: space, tab, newline, vertical tab, form feed, carriage
return). -/
def isSpace (c : Char) : Bool :=
  decide (c.toNat = 32 ∨ (9 ≤ c.toNat ∧ c.toNat ≤ 13))

/-- Python `str.lower()`, one character at a time (ASCII fragment). -/
def pyLower (c : Char) : Char :=
  if 65 ≤ c.toNat ∧ c.toNat ≤ 90 then Char.ofNat (c.toNat + 32) else c

/-- One character of Python `text.replace("-", " ")` (a single-character
pattern, so the replacement acts characterwise). -/
def hyphenToSpace (c : Char) : Char :=
  if c = '-' then ' ' else c

/-- Worker for `pySplit`: `acc` is the (non-empty-or-empty) current run of
non-whitespace characters. -/
def pySplitAux : List Char → List Char → List (List Char)
  | [], [] => []
  | a :: acc, [] => (a :: acc) :: []
  | [], c :: cs => if isSpace c then pySplitAux [] cs else pySplitAux [c] cs
  | a :: acc, c :: cs =>
    if isSpace c then (a :: acc) :: pySplitAux [] cs
    else pySplitAux ((a :: acc) ++ [c]) cs

/-- Python `str.split()` with no arguments: split on runs of whitespace and
discard empty tokens. -/
def pySplit (t : List Char) : List (List Char) :=
  pySplitAux [] t

/-- Python `str.strip()` with no arguments: drop leading and trailing
whitespace. -/
def pyStrip (t : List Char) : List Char :=
  ((t.dropWhile isSpace).reverse.dropWhile isSpace).reverse

/-- The configurable ignore list of `basic_agent.py` (the backchannel
lexicon), exactly the seventeen members of the Python set literal
`IGNORE_WORDS`. -/
def IGNORE_WORDS : List (List Char) :=
  ["yeah".toList, "yep".toList, "yes".toList, "ok".toList, "okay".toList,
   "alright".toList, "hmm".toList, "mhm".toList, "aha".toList,
   "uh-huh".toList, "uhhuh".toList, "mm-hm".toList, "right".toList,
   "sure".toList, "correct".toList, "yea".toList, "oka".toList]

/-- The cleaning pipeline of `is_backchannel`:
`text.replace("-", " ").translate(str.maketrans('', '', string.punctuation)).lower()`. -/
def cleanText (t : List Char) : List Char :=
  ((t.map hyphenToSpace).filter (fun c => !isPunct c)).map pyLower

/-- Model of `InterruptionHandler.is_backchannel`, parameterized by the lexicon it
reads (`basic_agent.py` reads the module-level `IGNORE_WORDS`):
clean the text, split into words, return `True` on an empty word list,
otherwise test `set(words).issubset(lex)` (`dedup` models the `set(words)`
conversion; subset of a Python set is elementwise membership). -/
def is_backchannel_with (lex : List (List Char)) (t : List Char) : Bool :=
  let words := pySplit (cleanText t)
  if words.isEmpty then true
  else (words.dedup).all (fun w => decide (w ∈ lex))

/-- Model of `InterruptionHandler.is_backchannel` applied to the configured
`IGNORE_WORDS`. -/
def is_backchannel (t : List Char) : Bool :=
  is_backchannel_with IGNORE_WORDS t

/-- Model of `InterruptionHandler.should_interrupt`: never interrupt while the agent
is silent; while it speaks, interrupt exactly on non-backchannel text. -/
def should_interrupt (t : List Char) (is_agent_speaking : Bool) : Bool :=
  if !is_agent_speaking then false
  else if is_backchannel t then false
  else true

/-- The four turn-taking actions of the specification's decision engine.
`NONE` is the no-op (the handler returns without calling anything). -/
inductive TurnAction
  | INTERRUPT
  | IGNORE
  | REPLY
  | NONE
deriving DecidableEq, Repr

/-- The `on_transcription` handler (partial-transcription trigger) of
`basic_agent.py`, as a function from the event payload `msg.content` and the
speaking state to the action performed: strip the text, return on empty
text, call `session.response_agent.interrupt()` when `should_interrupt`
says so, log an IGNORE when the agent speaks over a backchannel, and do
nothing otherwise. -/
def on_transcription (content : List Char) (is_speaking : Bool) : TurnAction :=
  let text := pyStrip content
  if text.isEmpty then TurnAction.NONE
  else if should_interrupt text is_speaking then TurnAction.INTERRUPT
  else if is_speaking then TurnAction.IGNORE
  else TurnAction.NONE

/-- The `on_user_speech_committed` handler (turn-completion trigger) of
`basic_agent.py`: whenever the agent is not speaking it calls
`session.generate_reply()` (the stripped text is used only in the log
line); when the agent is speaking it does nothing. -/
def on_user_speech_committed (content : List Char) (is_speaking : Bool) :
    TurnAction :=
  if !is_speaking then TurnAction.REPLY else TurnAction.NONE

/-- The Python exception raised when a method is looked up on `None`. -/
inductive PyError
  | attributeError
deriving DecidableEq, Repr

/-- Behavior of `is_backchannel` under Python's dynamic typing: the parameter is
annotated `text: str`, but the annotation is not enforced, so a `None`
payload reaches `None.replace` and raises `AttributeError`. -/
def is_backchannel_dyn : Option (List Char) → Except PyError Bool
  | Option.none => Except.error PyError.attributeError
  | Option.some t => Except.ok (is_backchannel t)

/-- Behavior of `should_interrupt` under Python's dynamic typing: the speaking-state
guard runs before the text is touched, so a `None` text only raises once
`is_backchannel` is actually called. -/
def should_interrupt_dyn (t : Option (List Char)) (is_agent_speaking : Bool) :
    Except PyError Bool :=
  if !is_agent_speaking then Except.ok false
  else
    match is_backchannel_dyn t with
    | Except.error e => Except.error e
    | Except.ok b => Except.ok (if b then false else true)

/-- The only state the classifier can reach: the module-level lexicon. -/
structure LexiconState where
  ignore_words : List (List Char)
deriving DecidableEq, Repr

/-- State-passing rendering of `is_backchannel`: the body only reads
`IGNORE_WORDS` (in the `issubset` test) and writes nothing, so the state
threads through unchanged. -/
def classify_st (st : LexiconState) (t : List Char) : Bool × LexiconState :=
  (is_backchannel_with st.ignore_words t, st)

/-- State-passing rendering of `should_interrupt`: its only state access is
the `is_backchannel` call. -/
def should_interrupt_st (st : LexiconState) (t : List Char) (sp : Bool) :
    Bool × LexiconState :=
  if !sp then (false, st)
  else
    let r := classify_st st t
    (if r.1 then false else true, r.2)

/-- Modelled from the spec (§4.2, the reference algorithm for the
classifier): replace hyphens with a space, strip all punctuation,
lowercase, split on whitespace discarding empty tokens; true on the empty
token sequence, otherwise true iff every token is a member of the
Lexicon. -/
def spec_is_backchannel (t : List Char) : Bool :=
  let tokens := pySplit (((t.map hyphenToSpace).filter
    (fun c => !isPunct c)).map pyLower)
  if tokens.isEmpty then true
  else tokens.all (fun w => decide (w ∈ IGNORE_WORDS))

/-- Copy of `IGNORE_WORDS` with the two hyphen-carrying entries removed. -/
def IGNORE_WORDS_pruned : List (List Char) :=
  IGNORE_WORDS.filter
    (fun w => decide (w ≠ "uh-huh".toList ∧ w ≠ "mm-hm".toList))

theorem toNat_ofNat_valid (n : Nat) (hv : Nat.isValidChar n) :
    (Char.ofNat n).toNat = n := by
  simp [Char.ofNat, hv]
  rfl

theorem is_backchannel_with_eq (lex : List (List Char)) (t : List Char) :
    is_backchannel_with lex t =
      if (pySplit (cleanText t)).isEmpty then true
      else ((pySplit (cleanText t)).dedup).all (fun w => decide (w ∈ lex)) := rfl

theorem on_transcription_eq (content : List Char) (sp : Bool) :
    on_transcription content sp =
      if (pyStrip content).isEmpty then TurnAction.NONE
      else if should_interrupt (pyStrip content) sp then TurnAction.INTERRUPT
      else if sp then TurnAction.IGNORE
      else TurnAction.NONE := rfl

theorem spec_is_backchannel_eq (t : List Char) :
    spec_is_backchannel t =
      if (pySplit (cleanText t)).isEmpty then true
      else (pySplit (cleanText t)).all (fun w => decide (w ∈ IGNORE_WORDS)) := rfl

theorem dedup_all {α : Type} [DecidableEq α] (l : List α) (p : α → Bool) :
    l.dedup.all p = l.all p := by
  rw [Bool.eq_iff_iff]
  simp [List.all_eq_true]

theorem pyLower_eq_self (c : Char) (h : ¬(65 ≤ c.toNat ∧ c.toNat ≤ 90)) :
    pyLower c = c := by
  unfold pyLower
  exact if_neg h

theorem pyLower_toNat (c : Char) :
    (pyLower c).toNat =
      if 65 ≤ c.toNat ∧ c.toNat ≤ 90 then c.toNat + 32 else c.toNat := by
  unfold pyLower
  by_cases h : 65 ≤ c.toNat ∧ c.toNat ≤ 90
  · rw [if_pos h, if_pos h]
    exact toNat_ofNat_valid _ (Or.inl (by omega))
  · rw [if_neg h, if_neg h]

theorem pyLower_idem (c : Char) : pyLower (pyLower c) = pyLower c := by
  by_cases h : 65 ≤ c.toNat ∧ c.toNat ≤ 90
  · apply pyLower_eq_self
    rw [pyLower_toNat, if_pos h]
    omega
  · rw [pyLower_eq_self c h]
    exact pyLower_eq_self c h

theorem isPunct_pyLower (c : Char) (h : isPunct c = false) :
    isPunct (pyLower c) = false := by
  unfold isPunct at h ⊢
  rw [decide_eq_false_iff_not] at h ⊢
  rw [pyLower_toNat]
  by_cases hc : 65 ≤ c.toNat ∧ c.toNat ≤ 90
  · rw [if_pos hc]
    omega
  · rw [if_neg hc]
    exact h

theorem isSpace_toNat (c : Char) (h : isSpace c = true) :
    c.toNat = 32 ∨ (9 ≤ c.toNat ∧ c.toNat ≤ 13) := by
  unfold isSpace at h
  exact of_decide_eq_true h

theorem hyphenToSpace_of_space (c : Char) (h : isSpace c = true) :
    hyphenToSpace c = c := by
  unfold hyphenToSpace
  apply if_neg
  intro he
  subst he
  exact absurd h (by decide)

theorem isPunct_false_of_space (c : Char) (h : isSpace c = true) :
    isPunct c = false := by
  have := isSpace_toNat c h
  unfold isPunct
  rw [decide_eq_false_iff_not]
  omega

theorem pyLower_of_space (c : Char) (h : isSpace c = true) :
    pyLower c = c := by
  have := isSpace_toNat c h
  apply pyLower_eq_self
  omega

theorem cleanText_append (a b : List Char) :
    cleanText (a ++ b) = cleanText a ++ cleanText b := by
  simp [cleanText, List.filter_append]

theorem cleanText_of_space (s : List Char) (h : ∀ c ∈ s, isSpace c = true) :
    cleanText s = s := by
  induction s with
  | nil => rfl
  | cons c cs ih =>
    have hc := h c (List.mem_cons_self c cs)
    have hcs := fun x hx => h x (List.mem_cons_of_mem c hx)
    simp [cleanText, hyphenToSpace_of_space c hc, isPunct_false_of_space c hc,
      pyLower_of_space c hc]
    simpa [cleanText] using ih hcs

theorem mem_cleanText (c : Char) (t : List Char) (h : c ∈ cleanText t) :
    pyLower c = c ∧ isPunct c = false := by
  unfold cleanText at h
  rw [List.mem_map] at h
  obtain ⟨b, hb, rfl⟩ := h
  rw [List.mem_filter] at hb
  have hb2 : isPunct b = false := by simpa using hb.2
  exact ⟨pyLower_idem b, isPunct_pyLower b hb2⟩

theorem pySplitAux_chars (l : List Char) :
    ∀ acc : List Char, (∀ c ∈ acc, isSpace c = false) →
      ∀ tok ∈ pySplitAux acc l, ∀ c ∈ tok,
        (c ∈ acc ∨ c ∈ l) ∧ isSpace c = false := by
  induction l with
  | nil =>
    intro acc hacc tok htok c hc
    cases acc with
    | nil => simp [pySplitAux] at htok
    | cons a as =>
      simp [pySplitAux] at htok
      subst htok
      exact ⟨Or.inl hc, hacc c hc⟩
  | cons x xs ih =>
    intro acc hacc tok htok c hc
    by_cases hx : isSpace x = true
    · cases acc with
      | nil =>
        simp only [pySplitAux, hx, if_true] at htok
        have := ih [] (by intro c hc; cases hc) tok htok c hc
        rcases this with ⟨h1 | h2, hs⟩
        · cases h1
        · exact ⟨Or.inr (List.mem_cons_of_mem x h2), hs⟩
      | cons a as =>
        simp only [pySplitAux, hx, if_true, List.mem_cons] at htok
        rcases htok with rfl | htok
        · exact ⟨Or.inl hc, hacc c hc⟩
        · have := ih [] (by intro c hc; cases hc) tok htok c hc
          rcases this with ⟨h1 | h2, hs⟩
          · cases h1
          · exact ⟨Or.inr (List.mem_cons_of_mem x h2), hs⟩
    · have hx' : isSpace x = false := by
        cases hhx : isSpace x
        · rfl
        · exact absurd hhx hx
      cases acc with
      | nil =>
        simp only [pySplitAux, hx, if_false] at htok
        have hinv : ∀ c ∈ [x], isSpace c = false := by
          intro c hc
          rcases List.mem_singleton.1 hc with rfl
          exact hx'
        have := ih [x] hinv tok htok c hc
        rcases this with ⟨h1 | h2, hs⟩
        · exact ⟨Or.inr (List.mem_cons.2 (Or.inl (List.mem_singleton.1 h1))), hs⟩
        · exact ⟨Or.inr (List.mem_cons_of_mem x h2), hs⟩
      | cons a as =>
        simp only [pySplitAux, hx, if_false] at htok
        have hinv : ∀ c ∈ (a :: as) ++ [x], isSpace c = false := by
          intro c hc
          rcases List.mem_append.1 hc with h | h
          · exact hacc c h
          · rcases List.mem_singleton.1 h with rfl
            exact hx'
        have := ih ((a :: as) ++ [x]) hinv tok htok c hc
        rcases this with ⟨h1 | h2, hs⟩
        · rcases List.mem_append.1 h1 with h | h
          · exact ⟨Or.inl h, hs⟩
          · exact ⟨Or.inr (List.mem_cons.2 (Or.inl (List.mem_singleton.1 h))), hs⟩
        · exact ⟨Or.inr (List.mem_cons_of_mem x h2), hs⟩

theorem pySplit_chars (t : List Char) :
    ∀ tok ∈ pySplit t, ∀ c ∈ tok, c ∈ t ∧ isSpace c = false := by
  intro tok htok c hc
  have := pySplitAux_chars t [] (by intro c hc; cases hc) tok htok c hc
  rcases this with ⟨h1 | h2, hs⟩
  · cases h1
  · exact ⟨h2, hs⟩

theorem token_chars (t : List Char) :
    ∀ tok ∈ pySplit (cleanText t), ∀ c ∈ tok,
      pyLower c = c ∧ isPunct c = false ∧ isSpace c = false := by
  intro tok htok c hc
  have h1 := pySplit_chars (cleanText t) tok htok c hc
  have h2 := mem_cleanText c t h1.1
  exact ⟨h2.1, h2.2, h1.2⟩

theorem token_ne_hyphenated (tok : List Char)
    (h : ∀ c ∈ tok, isPunct c = false) :
    tok ≠ "uh-huh".toList ∧ tok ≠ "mm-hm".toList := by
  constructor
  · intro he
    subst he
    exact absurd (h '-' (by decide)) (by decide)
  · intro he
    subst he
    exact absurd (h '-' (by decide)) (by decide)

theorem pySplitAux_all_space (s : List Char) (h : ∀ c ∈ s, isSpace c = true) :
    ∀ acc : List Char, pySplitAux acc s = pySplitAux acc [] := by
  induction s with
  | nil => intro acc; rfl
  | cons x xs ih =>
    intro acc
    have hx : isSpace x = true := h x (List.mem_cons_self x xs)
    have hxs : ∀ c ∈ xs, isSpace c = true :=
      fun c hc => h c (List.mem_cons_of_mem x hc)
    cases acc with
    | nil =>
      simp only [pySplitAux, hx, if_true]
      exact ih hxs []
    | cons a as =>
      simp only [pySplitAux, hx, if_true]
      rw [ih hxs []]
      rfl

theorem pySplitAux_append_space (x s : List Char)
    (h : ∀ c ∈ s, isSpace c = true) :
    ∀ acc : List Char, pySplitAux acc (x ++ s) = pySplitAux acc x := by
  induction x with
  | nil =>
    intro acc
    simpa using pySplitAux_all_space s h acc
  | cons y ys ih =>
    intro acc
    by_cases hy : isSpace y = true
    · cases acc with
      | nil =>
        simp only [List.cons_append, pySplitAux, hy, if_true]
        exact ih []
      | cons a as =>
        simp only [List.cons_append, pySplitAux, hy, if_true]
        exact congrArg _ (ih [])
    · cases acc with
      | nil =>
        simp only [List.cons_append, pySplitAux, hy, if_false]
        exact ih [y]
      | cons a as =>
        simp only [List.cons_append, pySplitAux, hy, if_false]
        exact ih ((a :: as) ++ [y])

theorem pySplit_space_left (s x : List Char) (h : ∀ c ∈ s, isSpace c = true) :
    pySplit (s ++ x) = pySplit x := by
  induction s with
  | nil => rfl
  | cons y ys ih =>
    have hy : isSpace y = true := h y (List.mem_cons_self y ys)
    have hys : ∀ c ∈ ys, isSpace c = true :=
      fun c hc => h c (List.mem_cons_of_mem y hc)
    unfold pySplit
    simp only [List.cons_append, pySplitAux, hy, if_true]
    exact ih hys

theorem pySplit_space_right (x s : List Char) (h : ∀ c ∈ s, isSpace c = true) :
    pySplit (x ++ s) = pySplit x :=
  pySplitAux_append_space x s h []

theorem strip_decomposition (t : List Char) :
    ∃ p s, t = p ++ pyStrip t ++ s ∧
      (∀ c ∈ p, isSpace c = true) ∧ (∀ c ∈ s, isSpace c = true) := by
  refine ⟨t.takeWhile isSpace,
    ((t.dropWhile isSpace).reverse.takeWhile isSpace).reverse, ?_, ?_, ?_⟩
  · have h2 : t.dropWhile isSpace =
        pyStrip t ++ ((t.dropWhile isSpace).reverse.takeWhile isSpace).reverse := by
      unfold pyStrip
      have h3 := congrArg List.reverse
        (List.takeWhile_append_dropWhile (p := isSpace)
          (l := (t.dropWhile isSpace).reverse))
      rw [List.reverse_append, List.reverse_reverse] at h3
      exact h3.symm
    conv_lhs =>
      rw [← List.takeWhile_append_dropWhile (p := isSpace) (l := t)]
      rw [h2]
    exact (List.append_assoc _ _ _).symm
  · intro c hc
    exact List.mem_takeWhile_imp hc
  · intro c hc
    rw [List.mem_reverse] at hc
    exact List.mem_takeWhile_imp hc

theorem pySplit_cleanText_strip (t : List Char) :
    pySplit (cleanText (pyStrip t)) = pySplit (cleanText t) := by
  obtain ⟨p, s, ht, hp, hs⟩ := strip_decomposition t
  conv_rhs => rw [ht]
  rw [cleanText_append, cleanText_append, cleanText_of_space p hp,
    cleanText_of_space s hs, List.append_assoc]
  rw [pySplit_space_left p _ hp]
  exact (pySplit_space_right _ s hs).symm

theorem is_backchannel_strip (t : List Char) :
    is_backchannel (pyStrip t) = is_backchannel t := by
  unfold is_backchannel
  rw [is_backchannel_with_eq, is_backchannel_with_eq, pySplit_cleanText_strip]

/-- Claim C1: the specification demands `is_backchannel("uh-huh") = true`
(hyphen normalization to "uh huh", both tokens in the lexicon); the code
disagrees: after hyphen normalization the tokens are "uh" and "huh", and
neither token is a member of `IGNORE_WORDS` (the set holds the hyphenated
form "uh-huh", which the normalization makes unreachable), so
`is_backchannel` returns `false` on this input. -/
theorem uh_huh_is_not_backchannel :
    is_backchannel ("uh-huh".toList) = false ∧
    pySplit (cleanText ("uh-huh".toList)) = ["uh".toList, "huh".toList] ∧
    "uh".toList ∉ IGNORE_WORDS ∧ "huh".toList ∉ IGNORE_WORDS := by decide

/-- Claim C2: on the turn-completion trigger a REPLY is issued if and only
if the agent is not speaking, for every finalized utterance text: a silent
agent replies unconditionally, a speaking agent takes no action. -/
theorem committed_reply_iff_silent :
    ∀ (content : List Char) (sp : Bool),
      on_user_speech_committed content sp =
        (if sp then TurnAction.NONE else TurnAction.REPLY) ∧
      (on_user_speech_committed content sp = TurnAction.REPLY ↔ sp = false) := by
  intro content sp
  cases sp <;> simp [on_user_speech_committed]

/-- Claim C3: for every non-empty text, while the agent is speaking the
partial-transcription decision is IGNORE on backchannel text and INTERRUPT
on non-backchannel text; `should_interrupt text true` is the negation of
`is_backchannel text` (the action conjunct is stated for texts that remain
non-empty after the handler's `strip()`, since the handler first discards
whitespace-only fragments). -/
theorem midspeech_decision_negates_backchannel :
    ∀ text : List Char, text ≠ [] →
      should_interrupt text true = !is_backchannel text ∧
      (pyStrip text ≠ [] →
        on_transcription text true =
          (if is_backchannel text then TurnAction.IGNORE
           else TurnAction.INTERRUPT)) := by
  have hb : ∀ u : List Char, should_interrupt u true = !is_backchannel u := by
    intro u
    unfold should_interrupt
    cases h : is_backchannel u <;> simp [h]
  intro text hne
  refine ⟨hb text, ?_⟩
  intro hstrip
  rw [on_transcription_eq]
  have hne' : (pyStrip text).isEmpty = false := by
    cases h : pyStrip text with
    | nil => exact absurd h hstrip
    | cons a l => rfl
  rw [hne', hb (pyStrip text), is_backchannel_strip]
  cases h : is_backchannel text <;> simp [h]

theorem midspeech_decision_negates_backchannel_witness :
    should_interrupt ("stop".toList) true = !is_backchannel ("stop".toList) ∧
    on_transcription ("stop".toList) true = TurnAction.INTERRUPT := by
  have h := midspeech_decision_negates_backchannel ("stop".toList) (by decide)
  refine ⟨h.1, ?_⟩
  rw [h.2 (by decide)]
  decide

/-- Claim C4: when the agent is not speaking the partial-transcription path
takes no action for any text: `should_interrupt text false` is always
`false` and the handler performs no interrupt call. -/
theorem silent_trigger_no_interrupt :
    ∀ text : List Char,
      should_interrupt text false = false ∧
      on_transcription text false = TurnAction.NONE := by
  intro text
  refine ⟨rfl, ?_⟩
  rw [on_transcription_eq]
  cases h : (pyStrip text).isEmpty <;> simp [h, should_interrupt]

/-- Claim C5 counterexample: the claim says both triggers act as NONE on
text whose `strip()` is empty, but the turn-completion handler has no
empty-text guard: on the whitespace-only utterance " " with the agent
silent it issues REPLY, which is distinct from NONE. -/
theorem empty_text_committed_reply_cex :
    pyStrip (" ".toList) = [] ∧
    on_user_speech_committed (" ".toList) false = TurnAction.REPLY ∧
    TurnAction.REPLY ≠ TurnAction.NONE := by decide

/-- Claim C5 as amended: for every text whose `strip()` is empty, the
partial-transcription trigger takes no action (NONE); the turn-completion
trigger ignores the emptiness of the text and behaves as always — NONE
when the agent is speaking and REPLY when it is silent. -/
theorem empty_text_none_amended :
    ∀ (content : List Char) (sp : Bool), pyStrip content = [] →
      on_transcription content sp = TurnAction.NONE ∧
      on_user_speech_committed content sp =
        (if sp then TurnAction.NONE else TurnAction.REPLY) := by
  intro content sp h
  constructor
  · rw [on_transcription_eq, h]
    rfl
  · cases sp <;> rfl

theorem empty_text_none_amended_witness :
    on_transcription (" ".toList) false = TurnAction.NONE ∧
    on_user_speech_committed (" ".toList) false = TurnAction.REPLY := by
  have h := empty_text_none_amended (" ".toList) false (by decide)
  exact ⟨h.1, h.2⟩

/-- Claim C6: `is_backchannel` computes exactly the specified algorithm —
replace hyphens with a space, strip punctuation, lowercase, split on
whitespace discarding empty tokens, return true on the empty token
sequence and otherwise true iff every token is in the lexicon
(`spec_is_backchannel` is modelled from the spec's wording; the source's
`set(words).issubset(...)` agrees with the spec's per-token test). -/
theorem is_backchannel_refines_spec :
    ∀ t : List Char, is_backchannel t = spec_is_backchannel t := by
  intro t
  unfold is_backchannel
  rw [is_backchannel_with_eq, spec_is_backchannel_eq]
  cases h : (pySplit (cleanText t)).isEmpty <;> simp [h, dedup_all]

/-- Claim C7 counterexample: the claim says no exception propagates for any
input value including null, but a `None` payload raises `AttributeError`
from `is_backchannel` (and hence from `should_interrupt` when the agent is
speaking), exactly the InvalidInput condition the spec itself describes. -/
theorem null_input_raises_cex :
    is_backchannel_dyn Option.none = Except.error PyError.attributeError ∧
    should_interrupt_dyn Option.none true =
      Except.error PyError.attributeError :=
  ⟨rfl, rfl⟩

/-- Claim C7 as amended: the core is total over string inputs — for every
string, `is_backchannel` and `should_interrupt` return a boolean and no
exception propagates; only a null (non-string) payload raises, and even
then `should_interrupt` stays exception-free while the agent is silent
because the speaking-state guard returns before the text is touched. -/
theorem total_on_strings_amended :
    ∀ (t : List Char) (sp : Bool),
      is_backchannel_dyn (Option.some t) = Except.ok (is_backchannel t) ∧
      should_interrupt_dyn (Option.some t) sp =
        Except.ok (should_interrupt t sp) ∧
      should_interrupt_dyn Option.none false = Except.ok false := by
  intro t sp
  refine ⟨rfl, ?_, rfl⟩
  cases sp <;> rfl

/-- Claim C8 counterexample: the claim says every lexicon entry is free of
punctuation, but the entry "uh-huh" is in `IGNORE_WORDS` and contains the
hyphen, a punctuation character. -/
theorem lexicon_hyphen_entries_cex :
    "uh-huh".toList ∈ IGNORE_WORDS ∧ '-' ∈ "uh-huh".toList ∧
    isPunct '-' = true := by decide

/-- Claim C8 as amended: every token stored in `IGNORE_WORDS` is lowercase
and contains no whitespace; every token is punctuation-free except
"uh-huh" and "mm-hm", whose only punctuation character is the hyphen. -/
theorem lexicon_canonical_amended :
    IGNORE_WORDS.all (fun w => w.all
      (fun c => decide (pyLower c = c) && !isSpace c)) = true ∧
    IGNORE_WORDS.all (fun w => w.all (fun c => !isPunct c) ||
      decide (w = "uh-huh".toList) || decide (w = "mm-hm".toList)) = true ∧
    IGNORE_WORDS.all (fun w => w.all
      (fun c => !isPunct c || decide (c = '-'))) = true := by decide

/-- Claim C9: classification is deterministic and side-effect-free — in the
state-passing rendering, classifying or deciding leaves the lexicon state
exactly as it was, and a repeated call from the post-call state returns
the same boolean. -/
theorem classification_pure_deterministic :
    ∀ (st : LexiconState) (t : List Char) (sp : Bool),
      (classify_st st t).2 = st ∧
      (classify_st st t).1 = (classify_st (classify_st st t).2 t).1 ∧
      (should_interrupt_st st t sp).2 = st ∧
      (should_interrupt_st st t sp).1 =
        (should_interrupt_st (should_interrupt_st st t sp).2 t sp).1 := by
  intro st t sp
  cases sp <;> simp [classify_st, should_interrupt_st]

/-- Claim C10: every token `is_backchannel` tests for lexicon membership is
lowercase and free of punctuation (hyphens included), so no tested token
can equal the hyphen-carrying lexicon entries "uh-huh" or "mm-hm", and
removing those two entries changes the classifier's verdict on no input. -/
theorem tokens_canonical_pruned_equiv :
    ∀ t : List Char,
      (∀ tok ∈ pySplit (cleanText t),
        (∀ c ∈ tok, pyLower c = c ∧ isPunct c = false) ∧
        tok ≠ "uh-huh".toList ∧ tok ≠ "mm-hm".toList) ∧
      is_backchannel_with IGNORE_WORDS t =
        is_backchannel_with IGNORE_WORDS_pruned t := by
  intro t
  have htokens : ∀ tok ∈ pySplit (cleanText t),
      (∀ c ∈ tok, pyLower c = c ∧ isPunct c = false) ∧
      tok ≠ "uh-huh".toList ∧ tok ≠ "mm-hm".toList := by
    intro tok htok
    have hpc : ∀ c ∈ tok, pyLower c = c ∧ isPunct c = false := by
      intro c hc
      have h := token_chars t tok htok c hc
      exact ⟨h.1, h.2.1⟩
    exact ⟨hpc, token_ne_hyphenated tok (fun c hc => (hpc c hc).2)⟩
  refine ⟨htokens, ?_⟩
  rw [is_backchannel_with_eq, is_backchannel_with_eq]
  by_cases h : (pySplit (cleanText t)).isEmpty = true
  · rw [if_pos h, if_pos h]
  · rw [if_neg h, if_neg h]
    rw [Bool.eq_iff_iff]
    simp only [List.all_eq_true, List.mem_dedup, decide_eq_true_eq]
    constructor
    · intro hall w hw
      have hmem : w ∈ IGNORE_WORDS := hall w hw
      have hne := (htokens w hw).2
      have : w ∈ IGNORE_WORDS.filter
          (fun w => decide (w ≠ "uh-huh".toList ∧ w ≠ "mm-hm".toList)) := by
        rw [List.mem_filter]
        exact ⟨hmem, decide_eq_true hne⟩
      exact this
    · intro hall w hw
      have hmem : w ∈ IGNORE_WORDS.filter
          (fun w => decide (w ≠ "uh-huh".toList ∧ w ≠ "mm-hm".toList)) :=
        hall w hw
      exact (List.mem_filter.1 hmem).1

theorem tokens_canonical_pruned_equiv_witness :
    ((pyLower 'u' = 'u' ∧ isPunct 'u' = false) ∧
      "uh".toList ≠ "uh-huh".toList) ∧
    is_backchannel_with IGNORE_WORDS ("uh-huh".toList) =
      is_backchannel_with IGNORE_WORDS_pruned ("uh-huh".toList) := by
  have h := tokens_canonical_pruned_equiv ("uh-huh".toList)
  have h1 := h.1 ("uh".toList) (by decide)
  exact ⟨⟨h1.1 'u' (by decide), h1.2.1⟩, h.2⟩
